import Mathlib

/-!
Verification of the color-adjustment pipeline of `web-image-tools`
(`src/wasm/src/adjustments.rs`), shallowly embedded over exact rationals.

Modelling conventions:
* `f32` arithmetic is modelled by exact rational arithmetic (`ℚ`); the
  literal `f32::EPSILON` of the source is kept as `1 / 2^23`.
* Rust `f32::round` rounds half away from zero; `rround` models it.
* Rust float-to-integer `as` casts saturate; `sat255` / `sat65535`
  model `as u8` / `as u16` (composition with an explicit
  `.clamp(0.0, 255.0)` before the cast yields the same function).
* The transcendental `powf` calls (the exposure multiplier `2^stops` and
  the gamma power `(c/255)^(1/gamma)`) are not rational; the pipeline is
  parameterised by an arbitrary function `fpow : ℚ → ℚ → ℚ` standing for
  `powf`, so theorems quantifying over `fpow` cover every possible
  floating-point behaviour of those calls.
* `brighten`, `contrast` and `huerotate` come from the external `image`
  crate (an external collaborator per the spec); the pipeline is
  parameterised by arbitrary functions standing for them.
-/

/-- The source literal `f32::EPSILON` = 2⁻²³. -/
def eps : ℚ := 1 / 2 ^ 23

/-- Source `f32::max` (kernel-computable form of `max` on `ℚ`). -/
def qmax (a b : ℚ) : ℚ := if a ≤ b then b else a

/-- Source `f32::min` (kernel-computable form of `min` on `ℚ`). -/
def qmin (a b : ℚ) : ℚ := if a ≤ b then a else b

/-- Source `f32::abs` (kernel-computable form of `|·|` on `ℚ`). -/
def qabs (x : ℚ) : ℚ := if x < 0 then -x else x

/-- Source `f32::clamp` between `lo` and `hi`. -/
def qclamp (x lo hi : ℚ) : ℚ := qmin (qmax x lo) hi

/-- Rust `f32::round`: round half away from zero. -/
def rround (x : ℚ) : ℤ := if 0 ≤ x then ⌊x + 1 / 2⌋ else -⌊-x + 1 / 2⌋

/-- Source `max` on `ℤ` in the explicit branching form. -/
def imax (a b : ℤ) : ℤ := if a ≤ b then b else a

/-- Source `min` on `ℤ` in the explicit branching form. -/
def imin (a b : ℤ) : ℤ := if a ≤ b then a else b

/-- Rust saturating cast `as u8` applied to a rounded value. -/
def sat255 (z : ℤ) : ℕ := (imin (imax z 0) 255).toNat

/-- Rust saturating cast `as u16` applied to a rounded value. -/
def sat65535 (z : ℤ) : ℕ := (imin (imax z 0) 65535).toNat

/-- Channel normalisation `c as f32 / 255.0`. -/
def nrm (c : ℕ) : ℚ := (c : ℚ) / 255

/-- Source `r.max(g).max(b)` on normalised channels, from `rgb_to_hsl`. -/
def hslMax (r g b : ℕ) : ℚ := qmax (qmax (nrm r) (nrm g)) (nrm b)

/-- Source `r.min(g).min(b)` on normalised channels, from `rgb_to_hsl`. -/
def hslMin (r g b : ℕ) : ℚ := qmin (qmin (nrm r) (nrm g)) (nrm b)

/-- Lightness `l = (max + min) / 2` from `rgb_to_hsl`. -/
def hslL (r g b : ℕ) : ℚ := (hslMax r g b + hslMin r g b) / 2

/-- Saturation branch of `rgb_to_hsl`:
`d / (2 - max - min)` when `l > 0.5`, else `d / (max + min)`. -/
def hslS (r g b : ℕ) : ℚ :=
  if hslL r g b > 1 / 2 then
    (hslMax r g b - hslMin r g b) / (2 - hslMax r g b - hslMin r g b)
  else
    (hslMax r g b - hslMin r g b) / (hslMax r g b + hslMin r g b)

/-- Hue branch of `rgb_to_hsl` (before the `* 60.0` scaling): selected by
which channel attains the max, `(g-b)/d (+6 if g<b)`, `(b-r)/d + 2`,
`(r-g)/d + 4`. -/
def hslH (r g b : ℕ) : ℚ :=
  if qabs (hslMax r g b - nrm r) < eps then
    (if nrm g < nrm b then (nrm g - nrm b) / (hslMax r g b - hslMin r g b) + 6
     else (nrm g - nrm b) / (hslMax r g b - hslMin r g b))
  else if qabs (hslMax r g b - nrm g) < eps then
    (nrm b - nrm r) / (hslMax r g b - hslMin r g b) + 2
  else
    (nrm r - nrm g) / (hslMax r g b - hslMin r g b) + 4

/-- Source `rgb_to_hsl` from the source: returns `(0, 0, l)` when
`(max - min).abs() < f32::EPSILON`, otherwise `(h * 60, s, l)`. -/
def rgb_to_hsl (r g b : ℕ) : ℚ × ℚ × ℚ :=
  if qabs (hslMax r g b - hslMin r g b) < eps then (0, 0, hslL r g b)
  else (hslH r g b * 60, hslS r g b, hslL r g b)

/-- The `hue_to_rgb` closure of `hsl_to_rgb`: shift `t` into range, then
the four-piece linear interpolation. -/
def hue_to_rgb (p q t0 : ℚ) : ℚ :=
  let t1 := if t0 < 0 then t0 + 1 else t0
  let t := if t1 > 1 then t1 - 1 else t1
  if t < 1 / 6 then p + (q - p) * 6 * t
  else if t < 1 / 2 then q
  else if t < 2 / 3 then p + (q - p) * (2 / 3 - t) * 6
  else p

/-- Source `q` of `hsl_to_rgb`: `l * (1 + s)` when `l < 0.5`, else `l + s - l*s`. -/
def hslQ (s l : ℚ) : ℚ := if l < 1 / 2 then l * (1 + s) else l + s - l * s

/-- Source `hsl_to_rgb` from the source: achromatic shortcut when
`s.abs() < f32::EPSILON`, otherwise the piecewise hue interpolation at
offsets `+1/3, 0, -1/3`, each `* 255`, rounded, cast to `u8`. -/
def hsl_to_rgb (h s l : ℚ) : ℕ × ℕ × ℕ :=
  if qabs s < eps then
    (sat255 (rround (l * 255)), sat255 (rround (l * 255)), sat255 (rround (l * 255)))
  else
    (sat255 (rround (hue_to_rgb (2 * l - hslQ s l) (hslQ s l) (h / 360 + 1 / 3) * 255)),
     sat255 (rround (hue_to_rgb (2 * l - hslQ s l) (hslQ s l) (h / 360) * 255)),
     sat255 (rround (hue_to_rgb (2 * l - hslQ s l) (hslQ s l) (h / 360 - 1 / 3) * 255)))

/-- Source `luminance`: `0.299 * r + 0.587 * g + 0.114 * b` on normalised channels. -/
def luminance (r g b : ℚ) : ℚ := 299 / 1000 * r + 587 / 1000 * g + 114 / 1000 * b

/-- An RGBA pixel; channels are natural numbers, in `[0, 255]` for any
buffer produced by the decoder. -/
structure Pixel where
  r : ℕ
  g : ℕ
  b : ℕ
  a : ℕ
deriving DecidableEq, Repr

/-- A decoded image buffer: the pixels in row-major order. -/
abbrev Buf : Type := List Pixel

/-- Every channel of the pixel lies in `[0, 255]`. -/
def ValidPixel (p : Pixel) : Prop :=
  p.r ≤ 255 ∧ p.g ≤ 255 ∧ p.b ≤ 255 ∧ p.a ≤ 255

/-- Every channel of every pixel of the buffer lies in `[0, 255]`. -/
def ValidBuf (img : Buf) : Prop := ∀ p ∈ img, ValidPixel p

/-- Per-pixel body of `apply_saturation`. -/
def saturationPixel (factor : ℚ) (p : Pixel) : Pixel :=
  let hsl := rgb_to_hsl p.r p.g p.b
  let ns := qclamp (hsl.2.1 * factor) 0 1
  let rgb := hsl_to_rgb hsl.1 ns hsl.2.2
  ⟨rgb.1, rgb.2.1, rgb.2.2, p.a⟩

/-- Source `apply_saturation`: per-pixel map into a fresh buffer. -/
def apply_saturation (img : Buf) (factor : ℚ) : Buf :=
  img.map (saturationPixel factor)

/-- Per-pixel body of `apply_vibrance`. -/
def vibrancePixel (amount : ℚ) (p : Pixel) : Pixel :=
  let hsl := rgb_to_hsl p.r p.g p.b
  let ns := qclamp (hsl.2.1 + amount * (1 - hsl.2.1)) 0 1
  let rgb := hsl_to_rgb hsl.1 ns hsl.2.2
  ⟨rgb.1, rgb.2.1, rgb.2.2, p.a⟩

/-- Source `apply_vibrance`: per-pixel map into a fresh buffer. -/
def apply_vibrance (img : Buf) (amount : ℚ) : Buf :=
  img.map (vibrancePixel amount)

/-- One channel of `apply_exposure`:
`((c as f32 * multiplier).round() as u16).min(255) as u8`. -/
def exposureChannel (m : ℚ) (c : ℕ) : ℕ :=
  Nat.min (sat65535 (rround ((c : ℚ) * m))) 255

/-- Per-pixel body of `apply_exposure`, given the multiplier. -/
def exposurePixel (m : ℚ) (p : Pixel) : Pixel :=
  ⟨exposureChannel m p.r, exposureChannel m p.g, exposureChannel m p.b, p.a⟩

/-- Source `apply_exposure`: the multiplier is `2.0f32.powf(stops)`, modelled by
the abstract `fpow`. -/
def apply_exposure (fpow : ℚ → ℚ → ℚ) (img : Buf) (stops : ℚ) : Buf :=
  img.map (exposurePixel (fpow 2 stops))

/-- One channel of `apply_gamma`:
`((c as f32 / 255.0).powf(inv_gamma) * 255.0).round() as u8`, with the
`powf` call modelled by the abstract `fpow`. -/
def gammaChannel (fpow : ℚ → ℚ → ℚ) (invGamma : ℚ) (c : ℕ) : ℕ :=
  sat255 (rround (fpow (nrm c) invGamma * 255))

/-- Per-pixel body of `apply_gamma`. -/
def gammaPixel (fpow : ℚ → ℚ → ℚ) (invGamma : ℚ) (p : Pixel) : Pixel :=
  ⟨gammaChannel fpow invGamma p.r, gammaChannel fpow invGamma p.g,
   gammaChannel fpow invGamma p.b, p.a⟩

/-- Source `apply_gamma`: `inv_gamma = 1.0 / gamma`, then the per-pixel power map. -/
def apply_gamma (fpow : ℚ → ℚ → ℚ) (img : Buf) (gamma : ℚ) : Buf :=
  img.map (gammaPixel fpow (1 / gamma))

/-- One channel of `apply_shadows` / `apply_highlights`:
`((cf * adjustment) * 255.0).round().clamp(0.0, 255.0) as u8`. -/
def toneChannel (adjustment : ℚ) (c : ℕ) : ℕ :=
  sat255 (rround (nrm c * adjustment * 255))

/-- Per-pixel body of `apply_shadows`: weight `max(0, 1 - 2·lum)`,
multiplier `1 + (amount/100) · weight`. -/
def shadowsPixel (amount : ℚ) (p : Pixel) : Pixel :=
  let lum := luminance (nrm p.r) (nrm p.g) (nrm p.b)
  let adj := 1 + amount / 100 * qmax (1 - lum * 2) 0
  ⟨toneChannel adj p.r, toneChannel adj p.g, toneChannel adj p.b, p.a⟩

/-- Source `apply_shadows`: per-pixel map into a fresh buffer. -/
def apply_shadows (img : Buf) (amount : ℚ) : Buf :=
  img.map (shadowsPixel amount)

/-- Per-pixel body of `apply_highlights`: weight `max(0, 2·(lum - 0.5))`,
multiplier `1 + (amount/100) · weight`. -/
def highlightsPixel (amount : ℚ) (p : Pixel) : Pixel :=
  let lum := luminance (nrm p.r) (nrm p.g) (nrm p.b)
  let adj := 1 + amount / 100 * qmax ((lum - 1 / 2) * 2) 0
  ⟨toneChannel adj p.r, toneChannel adj p.g, toneChannel adj p.b, p.a⟩

/-- Source `apply_highlights`: per-pixel map into a fresh buffer. -/
def apply_highlights (img : Buf) (amount : ℚ) : Buf :=
  img.map (highlightsPixel amount)

/-- The adjustment stages of `adjust_image`, between decode and encode.
`fpow` models `powf`; `brightenF`, `contrastF`, `huerotF` model the
`image`-crate operators `brighten`, `contrast`, `huerotate` (external
collaborators). Stage order and skip conditions follow the source. -/
def adjust_image (fpow : ℚ → ℚ → ℚ)
    (brightenF : ℤ → Buf → Buf) (contrastF : ℚ → Buf → Buf)
    (huerotF : ℤ → Buf → Buf) (img : Buf)
    (brightness : ℤ) (contrast_val saturation : ℚ) (hue : ℤ)
    (exposure gamma shadows highlights vibrance : ℚ) : Buf :=
  let i1 := if qabs exposure > 1 / 1000 then apply_exposure fpow img exposure else img
  let i2 := if qabs shadows > 1 / 1000 then apply_shadows i1 shadows else i1
  let i3 := if qabs highlights > 1 / 1000 then apply_highlights i2 highlights else i2
  let i4 := if qabs (gamma - 1) > 1 / 1000 then apply_gamma fpow i3 gamma else i3
  let i5 := if brightness ≠ 0 then brightenF (rround ((brightness : ℚ) * (128 / 100))) i4 else i4
  let i6 := if qabs contrast_val > 1 / 1000 then contrastF contrast_val i5 else i5
  let i7 := if qabs (saturation - 1) > 1 / 1000 then apply_saturation i6 saturation else i6
  let i8 := if qabs vibrance > 1 / 1000 then apply_vibrance i7 (vibrance / 100) else i7
  if hue ≠ 0 then huerotF hue i8 else i8

/-! ## Bridging lemmas for the explicit-branching primitives -/

theorem qmax_eq (a b : ℚ) : qmax a b = max a b := (max_def a b).symm

theorem qmin_eq (a b : ℚ) : qmin a b = min a b := (min_def a b).symm

theorem qabs_eq (x : ℚ) : qabs x = |x| := by
  unfold qabs
  rcases lt_or_le x 0 with h | h
  · rw [if_pos h, abs_of_neg h]
  · rw [if_neg (not_lt.mpr h), abs_of_nonneg h]

theorem imax_eq (a b : ℤ) : imax a b = max a b := (max_def a b).symm

theorem imin_eq (a b : ℤ) : imin a b = min a b := (min_def a b).symm

theorem sat255_le (z : ℤ) : sat255 z ≤ 255 := by
  unfold sat255 imin imax
  split
  · split <;> omega
  · omega

theorem sat255_of_mem (z : ℤ) (h0 : 0 ≤ z) (h255 : z ≤ 255) : (sat255 z : ℤ) = z := by
  unfold sat255 imin imax
  split
  · split <;> omega
  · omega

theorem rround_nonneg (x : ℚ) (hx : 0 ≤ x) : 0 ≤ rround x := by
  unfold rround
  rw [if_pos hx]
  have : (0 : ℤ) ≤ ⌊x + 1 / 2⌋ := by
    apply Int.floor_nonneg.mpr
    linarith
  exact this

theorem rround_le (x : ℚ) (b : ℤ) (hb : x ≤ b) (hx : 0 ≤ x) : rround x ≤ b := by
  unfold rround
  rw [if_pos hx]
  have hfb : ⌊(b : ℚ) + 1 / 2⌋ = b := by
    rw [Int.floor_eq_iff] <;> push_cast <;> constructor <;> linarith
  calc ⌊x + 1 / 2⌋ ≤ ⌊(b : ℚ) + 1 / 2⌋ := Int.floor_le_floor (by linarith)
    _ = b := hfb

/-- Source `rround` of an integer is that integer. -/
theorem rround_intCast (n : ℤ) (hn : 0 ≤ n) : rround (n : ℚ) = n := by
  unfold rround
  rw [if_pos (by exact_mod_cast hn)]
  have : ⌊(n : ℚ) + 1 / 2⌋ = n := by
    rw [Int.floor_eq_iff]
    constructor <;> [skip; skip] <;> push_cast <;> linarith
  exact this

/-! ## The RGB ↔ HSL round trip -/

section HueEval

theorem hue_to_rgb_piece1 (p q t : ℚ) (h0 : 0 ≤ t) (h1 : t < 1 / 6) :
    hue_to_rgb p q t = p + (q - p) * 6 * t := by
  unfold hue_to_rgb
  dsimp only
  split_ifs with c1 c2 c3 c4 c5 <;> first | rfl | linarith

theorem hue_to_rgb_piece2 (p q t : ℚ) (h0 : 1 / 6 ≤ t) (h1 : t < 1 / 2) :
    hue_to_rgb p q t = q := by
  unfold hue_to_rgb
  dsimp only
  split_ifs with c1 c2 c3 c4 c5 <;> first | rfl | linarith

theorem hue_to_rgb_piece3 (p q t : ℚ) (h0 : 1 / 2 ≤ t) (h1 : t < 2 / 3) :
    hue_to_rgb p q t = p + (q - p) * (2 / 3 - t) * 6 := by
  unfold hue_to_rgb
  dsimp only
  split_ifs with c1 c2 c3 c4 c5 <;> first | rfl | linarith

theorem hue_to_rgb_piece4 (p q t : ℚ) (h0 : 2 / 3 ≤ t) (h1 : t ≤ 1) :
    hue_to_rgb p q t = p := by
  unfold hue_to_rgb
  dsimp only
  split_ifs with c1 c2 c3 c4 c5 <;> first | rfl | linarith

theorem hue_to_rgb_neg (p q t : ℚ) (h0 : -1 / 3 ≤ t) (h1 : t < 0) :
    hue_to_rgb p q t = p := by
  unfold hue_to_rgb
  dsimp only
  split_ifs with c1 c2 c3 c4 c5 <;> first | rfl | linarith

theorem hue_to_rgb_hi1 (p q t : ℚ) (h0 : 1 < t) (h1 : t < 7 / 6) :
    hue_to_rgb p q t = p + (q - p) * 6 * (t - 1) := by
  unfold hue_to_rgb
  dsimp only
  split_ifs with c1 c2 c3 c4 c5 <;> first | rfl | linarith

theorem hue_to_rgb_hi2 (p q t : ℚ) (h0 : 7 / 6 ≤ t) (h1 : t < 3 / 2) :
    hue_to_rgb p q t = q := by
  unfold hue_to_rgb
  dsimp only
  split_ifs with c1 c2 c3 c4 c5 <;> first | rfl | linarith

end HueEval
theorem sector_red_ge (R G B : ℚ) (hBG : B ≤ G) (hGR : G ≤ R) (hBR : B < R) :
    (0 ≤ (G - B) / (R - B) ∧ (G - B) / (R - B) < 6) ∧
    hue_to_rgb B R ((G - B) / (R - B) / 6 + 1 / 3) = R ∧
    hue_to_rgb B R ((G - B) / (R - B) / 6) = G ∧
    hue_to_rgb B R ((G - B) / (R - B) / 6 - 1 / 3) = B := by
  have hd : 0 < R - B := by linarith
  have hd' : R - B ≠ 0 := ne_of_gt hd
  set H := (G - B) / (R - B) with hH
  have h0 : 0 ≤ H := div_nonneg (by linarith) hd.le
  have h1 : H ≤ 1 := (div_le_one hd).mpr (by linarith)
  have hmul : (R - B) * H = G - B := by
    rw [hH, mul_div_cancel₀ _ hd']
  refine ⟨⟨h0, by linarith⟩, ?_, ?_, ?_⟩
  · by_cases hlt : H < 1
    · rw [hue_to_rgb_piece2 _ _ _ (by linarith) (by linarith)]
    · have he : H = 1 := le_antisymm h1 (not_lt.mp hlt)
      rw [hue_to_rgb_piece3 _ _ _ (by norm_num [he]) (by norm_num [he])]
      rw [he]; ring
  · by_cases hlt : H < 1
    · rw [hue_to_rgb_piece1 _ _ _ (by linarith) (by linarith)]
      have he : (R - B) * 6 * (H / 6) = G - B := by
        have hr : (R - B) * 6 * (H / 6) = (R - B) * H := by ring
        rw [hr, hmul]
      linarith [he]
    · have he : H = 1 := le_antisymm h1 (not_lt.mp hlt)
      have hGR' : G = R := by
        have := hmul
        rw [he, mul_one] at this
        linarith
      rw [hue_to_rgb_piece2 _ _ _ (by norm_num [he]) (by norm_num [he]), hGR']
  · rw [hue_to_rgb_neg _ _ _ (by linarith) (by linarith)]
theorem sector_red_lt (R G B : ℚ) (hGB : G < B) (hBR : B ≤ R) :
    (0 ≤ (G - B) / (R - G) + 6 ∧ (G - B) / (R - G) + 6 < 6) ∧
    hue_to_rgb G R (((G - B) / (R - G) + 6) / 6 + 1 / 3) = R ∧
    hue_to_rgb G R (((G - B) / (R - G) + 6) / 6) = G ∧
    hue_to_rgb G R (((G - B) / (R - G) + 6) / 6 - 1 / 3) = B := by
  have hGR : G < R := lt_of_lt_of_le hGB hBR
  have hd : 0 < R - G := by linarith
  have hd' : R - G ≠ 0 := ne_of_gt hd
  set X := (G - B) / (R - G) with hX
  have hneg : X < 0 := div_neg_of_neg_of_pos (by linarith) hd
  have hge : -1 ≤ X := by
    rw [hX, le_div_iff hd]
    linarith
  have hmul : (R - G) * X = G - B := by
    rw [hX, mul_div_cancel₀ _ hd']
  refine ⟨⟨by linarith, by linarith⟩, ?_, ?_, ?_⟩
  · rw [hue_to_rgb_hi2 _ _ _ (by linarith) (by linarith)]
  · rw [hue_to_rgb_piece4 _ _ _ (by linarith) (by linarith)]
  · rw [hue_to_rgb_piece3 _ _ _ (by linarith) (by linarith)]
    have hr : (R - G) * (2 / 3 - ((X + 6) / 6 - 1 / 3)) * 6 = -((R - G) * X) := by ring
    rw [hr, hmul]
    ring

theorem sector_green_rb (R G B : ℚ) (hRB : R ≤ B) (hBG : B ≤ G) (hRG : R < G) :
    (0 ≤ (B - R) / (G - R) + 2 ∧ (B - R) / (G - R) + 2 < 6) ∧
    hue_to_rgb R G (((B - R) / (G - R) + 2) / 6 + 1 / 3) = R ∧
    hue_to_rgb R G (((B - R) / (G - R) + 2) / 6) = G ∧
    hue_to_rgb R G (((B - R) / (G - R) + 2) / 6 - 1 / 3) = B := by
  have hd : 0 < G - R := by linarith
  have hd' : G - R ≠ 0 := ne_of_gt hd
  set X := (B - R) / (G - R) with hX
  have h0 : 0 ≤ X := div_nonneg (by linarith) hd.le
  have h1 : X ≤ 1 := (div_le_one hd).mpr (by linarith)
  have hmul : (G - R) * X = B - R := by
    rw [hX, mul_div_cancel₀ _ hd']
  refine ⟨⟨by linarith, by linarith⟩, ?_, ?_, ?_⟩
  · rw [hue_to_rgb_piece4 _ _ _ (by linarith) (by linarith)]
  · by_cases hlt : X < 1
    · rw [hue_to_rgb_piece2 _ _ _ (by linarith) (by linarith)]
    · have he : X = 1 := le_antisymm h1 (not_lt.mp hlt)
      rw [hue_to_rgb_piece3 _ _ _ (by norm_num [he]) (by norm_num [he])]
      rw [he]; ring
  · by_cases hlt : X < 1
    · rw [hue_to_rgb_piece1 _ _ _ (by linarith) (by linarith)]
      have hr : (G - R) * 6 * ((X + 2) / 6 - 1 / 3) = (G - R) * X := by ring
      rw [hr, hmul]
      ring
    · have he : X = 1 := le_antisymm h1 (not_lt.mp hlt)
      have hBG' : B = G := by
        have hm := hmul
        rw [he, mul_one] at hm
        linarith
      rw [hue_to_rgb_piece2 _ _ _ (by norm_num [he]) (by norm_num [he]), hBG']

theorem sector_green_br (R G B : ℚ) (hBR : B < R) (hRG : R < G) :
    (0 ≤ (B - R) / (G - B) + 2 ∧ (B - R) / (G - B) + 2 < 6) ∧
    hue_to_rgb B G (((B - R) / (G - B) + 2) / 6 + 1 / 3) = R ∧
    hue_to_rgb B G (((B - R) / (G - B) + 2) / 6) = G ∧
    hue_to_rgb B G (((B - R) / (G - B) + 2) / 6 - 1 / 3) = B := by
  have hd : 0 < G - B := by linarith
  have hd' : G - B ≠ 0 := ne_of_gt hd
  set X := (B - R) / (G - B) with hX
  have hneg : X < 0 := div_neg_of_neg_of_pos (by linarith) hd
  have hgt : -1 < X := by
    rw [hX, lt_div_iff hd]
    linarith
  have hmul : (G - B) * X = B - R := by
    rw [hX, mul_div_cancel₀ _ hd']
  refine ⟨⟨by linarith, by linarith⟩, ?_, ?_, ?_⟩
  · rw [hue_to_rgb_piece3 _ _ _ (by linarith) (by linarith)]
    have hr : (G - B) * (2 / 3 - ((X + 2) / 6 + 1 / 3)) * 6 = -((G - B) * X) := by ring
    rw [hr, hmul]
    ring
  · rw [hue_to_rgb_piece2 _ _ _ (by linarith) (by linarith)]
  · rw [hue_to_rgb_neg _ _ _ (by linarith) (by linarith)]

theorem sector_blue_ge (R G B : ℚ) (hGR : G ≤ R) (hRB : R < B) :
    (0 ≤ (R - G) / (B - G) + 4 ∧ (R - G) / (B - G) + 4 < 6) ∧
    hue_to_rgb G B (((R - G) / (B - G) + 4) / 6 + 1 / 3) = R ∧
    hue_to_rgb G B (((R - G) / (B - G) + 4) / 6) = G ∧
    hue_to_rgb G B (((R - G) / (B - G) + 4) / 6 - 1 / 3) = B := by
  have hGB : G < B := lt_of_le_of_lt hGR hRB
  have hd : 0 < B - G := by linarith
  have hd' : B - G ≠ 0 := ne_of_gt hd
  set X := (R - G) / (B - G) with hX
  have h0 : 0 ≤ X := div_nonneg (by linarith) hd.le
  have h1 : X < 1 := (div_lt_one hd).mpr (by linarith)
  have hmul : (B - G) * X = R - G := by
    rw [hX, mul_div_cancel₀ _ hd']
  refine ⟨⟨by linarith, by linarith⟩, ?_, ?_, ?_⟩
  · by_cases hpos : 0 < X
    · rw [hue_to_rgb_hi1 _ _ _ (by linarith) (by linarith)]
      have hr : (B - G) * 6 * ((X + 4) / 6 + 1 / 3 - 1) = (B - G) * X := by ring
      rw [hr, hmul]
      ring
    · have he : X = 0 := le_antisymm (not_lt.mp hpos) h0
      have hRG' : R = G := by
        have hm := hmul
        rw [he, mul_zero] at hm
        linarith
      rw [hue_to_rgb_piece4 _ _ _ (by norm_num [he]) (by norm_num [he]), hRG']
  · rw [hue_to_rgb_piece4 _ _ _ (by linarith) (by linarith)]
  · rw [hue_to_rgb_piece2 _ _ _ (by linarith) (by linarith)]

theorem sector_blue_lt (R G B : ℚ) (hRG : R < G) (hGB : G < B) :
    (0 ≤ (R - G) / (B - R) + 4 ∧ (R - G) / (B - R) + 4 < 6) ∧
    hue_to_rgb R B (((R - G) / (B - R) + 4) / 6 + 1 / 3) = R ∧
    hue_to_rgb R B (((R - G) / (B - R) + 4) / 6) = G ∧
    hue_to_rgb R B (((R - G) / (B - R) + 4) / 6 - 1 / 3) = B := by
  have hRB : R < B := lt_trans hRG hGB
  have hd : 0 < B - R := by linarith
  have hd' : B - R ≠ 0 := ne_of_gt hd
  set X := (R - G) / (B - R) with hX
  have hneg : X < 0 := div_neg_of_neg_of_pos (by linarith) hd
  have hgt : -1 < X := by
    rw [hX, lt_div_iff hd]
    linarith
  have hmul : (B - R) * X = R - G := by
    rw [hX, mul_div_cancel₀ _ hd']
  refine ⟨⟨by linarith, by linarith⟩, ?_, ?_, ?_⟩
  · rw [hue_to_rgb_piece4 _ _ _ (by linarith) (by linarith)]
  · rw [hue_to_rgb_piece3 _ _ _ (by linarith) (by linarith)]
    have hr : (B - R) * (2 / 3 - ((X + 4) / 6)) * 6 = -((B - R) * X) := by ring
    rw [hr, hmul]
    ring
  · rw [hue_to_rgb_piece2 _ _ _ (by linarith) (by linarith)]
theorem nrm_nonneg (c : ℕ) : 0 ≤ nrm c := by
  unfold nrm
  positivity

theorem nrm_le_one (c : ℕ) (h : c ≤ 255) : nrm c ≤ 1 := by
  unfold nrm
  rw [div_le_one (by norm_num)]
  exact_mod_cast h

theorem nrm_le_nrm (i j : ℕ) (h : i ≤ j) : nrm i ≤ nrm j := by
  unfold nrm
  have h' : (i : ℚ) ≤ j := by exact_mod_cast h
  gcongr

theorem nrm_gap (i j : ℕ) (h : i < j) : 1 / 255 ≤ nrm j - nrm i := by
  unfold nrm
  rw [div_sub_div_same, le_div_iff (by norm_num : (0:ℚ) < 255)]
  have h1 : (i : ℚ) + 1 ≤ (j : ℚ) := by exact_mod_cast h
  linarith

theorem nrm_lt_nrm (i j : ℕ) (h : i < j) : nrm i < nrm j := by
  have := nrm_gap i j h
  linarith

theorem eps_lt_inv255 : eps < 1 / 255 := by norm_num [eps]

theorem eps_pos : 0 < eps := by norm_num [eps]

/-- The `< f32::EPSILON` comparison of two normalised channels is an
exact equality test: distinct 8-bit channels differ by at least `1/255`,
far above `2⁻²³`. -/
theorem eps_iff (i j : ℕ) : qabs (nrm i - nrm j) < eps ↔ i = j := by
  constructor
  · intro h
    by_contra hne
    rcases Nat.lt_or_ge i j with hlt | hge
    · have hg := nrm_gap i j hlt
      have ha : qabs (nrm i - nrm j) = nrm j - nrm i := by
        rw [qabs_eq, abs_sub_comm, abs_of_nonneg (by linarith)]
      rw [ha] at h
      have := eps_lt_inv255
      linarith
    · have hlt' : j < i := lt_of_le_of_ne hge (Ne.symm (by omega))
      have hg := nrm_gap j i hlt'
      have ha : qabs (nrm i - nrm j) = nrm i - nrm j := by
        rw [qabs_eq, abs_of_nonneg (by linarith)]
      rw [ha] at h
      have := eps_lt_inv255
      linarith
  · intro h
    subst h
    simpa [qabs_eq] using eps_pos

theorem hslMin_le_hslMax (r g b : ℕ) : hslMin r g b ≤ hslMax r g b := by
  unfold hslMin hslMax
  rw [qmin_eq, qmin_eq, qmax_eq, qmax_eq]
  calc min (min (nrm r) (nrm g)) (nrm b) ≤ nrm b := min_le_right _ _
    _ ≤ max (max (nrm r) (nrm g)) (nrm b) := le_max_right _ _

theorem hslMax_le_one (r g b : ℕ) (hr : r ≤ 255) (hg : g ≤ 255) (hb : b ≤ 255) :
    hslMax r g b ≤ 1 := by
  unfold hslMax
  rw [qmax_eq, qmax_eq]
  exact max_le (max_le (nrm_le_one r hr) (nrm_le_one g hg)) (nrm_le_one b hb)

theorem hslMin_nonneg (r g b : ℕ) : 0 ≤ hslMin r g b := by
  unfold hslMin
  rw [qmin_eq, qmin_eq]
  exact le_min (le_min (nrm_nonneg r) (nrm_nonneg g)) (nrm_nonneg b)

theorem hslL_mem (r g b : ℕ) (hr : r ≤ 255) (hg : g ≤ 255) (hb : b ≤ 255) :
    0 ≤ hslL r g b ∧ hslL r g b ≤ 1 := by
  unfold hslL
  have h1 := hslMax_le_one r g b hr hg hb
  have h2 := hslMin_nonneg r g b
  have h3 := hslMin_le_hslMax r g b
  constructor <;> [linarith; linarith]

theorem hslS_bounds (r g b : ℕ) (hM : hslMax r g b ≤ 1) (h0 : 0 ≤ hslMin r g b)
    (hgap : 1 / 255 ≤ hslMax r g b - hslMin r g b) :
    1 / 510 ≤ hslS r g b ∧ hslS r g b ≤ 1 := by
  unfold hslS
  set M := hslMax r g b with hMdef
  set m := hslMin r g b with hmdef
  split_ifs with hl
  · unfold hslL at hl
    rw [← hMdef, ← hmdef] at hl
    have hden : 0 < 2 - M - m := by linarith
    constructor
    · rw [le_div_iff hden]
      linarith
    · rw [div_le_one hden]
      linarith
  · have hden : 0 < M + m := by linarith
    constructor
    · rw [le_div_iff hden]
      linarith
    · rw [div_le_one hden]
      linarith
theorem hslQ_eval (r g b : ℕ) (hM : hslMax r g b ≤ 1) (h0 : 0 ≤ hslMin r g b)
    (hgap : 1 / 255 ≤ hslMax r g b - hslMin r g b) :
    hslQ (hslS r g b) (hslL r g b) = hslMax r g b := by
  unfold hslQ hslS hslL
  set M := hslMax r g b with hMdef
  set m := hslMin r g b with hmdef
  split_ifs with h1 h2 h2
  · linarith
  · have hden : 0 < M + m := by linarith
    have hs : 1 + (M - m) / (M + m) = 2 * M / (M + m) := by
      field_simp
      ring
    rw [hs]
    field_simp
    ring
  · have hden : 0 < 2 - M - m := by linarith
    field_simp
    ring
  · have hsum : M + m = 1 := by linarith
    rw [hsum]
    norm_num
    linarith
/-- Chromatic case analysis: for any non-gray 8-bit pixel, the hue value
computed by `rgb_to_hsl` lies in `[0, 6)` (before the `×60` scaling) and
the three `hue_to_rgb` evaluations of `hsl_to_rgb`, at `p = min` and
`q = max`, reproduce the three normalised channels exactly. -/
theorem chromatic_eval (r g b : ℕ) (hr : r ≤ 255) (hg : g ≤ 255) (hb : b ≤ 255)
    (hne : ¬(r = g ∧ g = b)) :
    (0 ≤ hslH r g b ∧ hslH r g b < 6) ∧
    hue_to_rgb (hslMin r g b) (hslMax r g b) (hslH r g b / 6 + 1 / 3) = nrm r ∧
    hue_to_rgb (hslMin r g b) (hslMax r g b) (hslH r g b / 6) = nrm g ∧
    hue_to_rgb (hslMin r g b) (hslMax r g b) (hslH r g b / 6 - 1 / 3) = nrm b := by
  rcases le_or_lt g r with hgr | hgr
  · rcases le_or_lt b r with hbr | hbr
    · -- red is the maximum channel
      have hMx : hslMax r g b = nrm r := by
        unfold hslMax
        simp only [qmax_eq]
        rw [max_eq_left (nrm_le_nrm g r hgr), max_eq_left (nrm_le_nrm b r hbr)]
      rcases le_or_lt b g with hbg | hbg
      · -- g ≥ b : hue sector [0, 1]
        have hMn : hslMin r g b = nrm b := by
          unfold hslMin
          simp only [qmin_eq]
          rw [min_eq_right (nrm_le_nrm g r hgr), min_eq_right (nrm_le_nrm b g hbg)]
        have hbr' : b < r := by omega
        have hH : hslH r g b = (nrm g - nrm b) / (nrm r - nrm b) := by
          unfold hslH
          rw [hMx, hMn, if_pos ((eps_iff r r).mpr rfl),
            if_neg (not_lt.mpr (nrm_le_nrm b g hbg))]
        rw [hMx, hMn, hH]
        exact sector_red_ge (nrm r) (nrm g) (nrm b) (nrm_le_nrm b g hbg)
          (nrm_le_nrm g r hgr) (nrm_lt_nrm b r hbr')
      · -- g < b : hue sector [5, 6)
        have hMn : hslMin r g b = nrm g := by
          unfold hslMin
          simp only [qmin_eq]
          rw [min_eq_right (nrm_le_nrm g r hgr), min_eq_left (nrm_le_nrm g b hbg.le)]
        have hH : hslH r g b = (nrm g - nrm b) / (nrm r - nrm g) + 6 := by
          unfold hslH
          rw [hMx, hMn, if_pos ((eps_iff r r).mpr rfl), if_pos (nrm_lt_nrm g b hbg)]
        rw [hMx, hMn, hH]
        exact sector_red_lt (nrm r) (nrm g) (nrm b) (nrm_lt_nrm g b hbg)
          (nrm_le_nrm b r hbr)
    · -- g ≤ r < b : blue is the maximum channel
      have hMx : hslMax r g b = nrm b := by
        unfold hslMax
        simp only [qmax_eq]
        rw [max_eq_left (nrm_le_nrm g r hgr), max_eq_right (nrm_le_nrm r b hbr.le)]
      have hMn : hslMin r g b = nrm g := by
        unfold hslMin
        simp only [qmin_eq]
        rw [min_eq_right (nrm_le_nrm g r hgr),
          min_eq_left (nrm_le_nrm g b (le_trans hgr hbr.le))]
      have hH : hslH r g b = (nrm r - nrm g) / (nrm b - nrm g) + 4 := by
        unfold hslH
        rw [hMx, hMn,
          if_neg (fun h => by have := (eps_iff b r).mp h; omega),
          if_neg (fun h => by have := (eps_iff b g).mp h; omega)]
      rw [hMx, hMn, hH]
      exact sector_blue_ge (nrm r) (nrm g) (nrm b) (nrm_le_nrm g r hgr)
        (nrm_lt_nrm r b hbr)
  · rcases le_or_lt b g with hbg | hbg
    · -- r < g, b ≤ g : green is the maximum channel
      have hMx : hslMax r g b = nrm g := by
        unfold hslMax
        simp only [qmax_eq]
        rw [max_eq_right (nrm_le_nrm r g hgr.le), max_eq_left (nrm_le_nrm b g hbg)]
      have hcond : hslH r g b = (nrm b - nrm r) / (nrm g - hslMin r g b) + 2 := by
        unfold hslH
        rw [hMx,
          if_neg (fun h => by have := (eps_iff g r).mp h; omega),
          if_pos ((eps_iff g g).mpr rfl)]
      rcases le_or_lt r b with hrb | hrb
      · have hMn : hslMin r g b = nrm r := by
          unfold hslMin
          simp only [qmin_eq]
          rw [min_eq_left (nrm_le_nrm r g hgr.le), min_eq_left (nrm_le_nrm r b hrb)]
        have hH : hslH r g b = (nrm b - nrm r) / (nrm g - nrm r) + 2 := by
          rw [hcond, hMn]
        rw [hMx, hMn, hH]
        exact sector_green_rb (nrm r) (nrm g) (nrm b) (nrm_le_nrm r b hrb)
          (nrm_le_nrm b g hbg) (nrm_lt_nrm r g hgr)
      · have hMn : hslMin r g b = nrm b := by
          unfold hslMin
          simp only [qmin_eq]
          rw [min_eq_left (nrm_le_nrm r g hgr.le), min_eq_right (nrm_le_nrm b r hrb.le)]
        have hH : hslH r g b = (nrm b - nrm r) / (nrm g - nrm b) + 2 := by
          rw [hcond, hMn]
        rw [hMx, hMn, hH]
        exact sector_green_br (nrm r) (nrm g) (nrm b) (nrm_lt_nrm b r hrb)
          (nrm_lt_nrm r g hgr)
    · -- r < g < b : blue is the maximum channel
      have hMx : hslMax r g b = nrm b := by
        unfold hslMax
        simp only [qmax_eq]
        rw [max_eq_right (nrm_le_nrm r g hgr.le), max_eq_right (nrm_le_nrm g b hbg.le)]
      have hMn : hslMin r g b = nrm r := by
        unfold hslMin
        simp only [qmin_eq]
        rw [min_eq_left (nrm_le_nrm r g hgr.le),
          min_eq_left (nrm_le_nrm r b (le_trans hgr.le hbg.le))]
      have hH : hslH r g b = (nrm r - nrm g) / (nrm b - nrm r) + 4 := by
        unfold hslH
        rw [hMx, hMn,
          if_neg (fun h => by have := (eps_iff b r).mp h; omega),
          if_neg (fun h => by have := (eps_iff b g).mp h; omega)]
      rw [hMx, hMn, hH]
      exact sector_blue_lt (nrm r) (nrm g) (nrm b) (nrm_lt_nrm r g hgr)
        (nrm_lt_nrm g b hbg)
theorem back_channel (c : ℕ) (hc : c ≤ 255) : sat255 (rround (nrm c * 255)) = c := by
  have h1 : nrm c * 255 = ((c : ℤ) : ℚ) := by
    unfold nrm
    push_cast
    field_simp
  rw [h1, rround_intCast (c : ℤ) (by positivity)]
  unfold sat255 imin imax
  split_ifs <;> omega

theorem nrm_le_hslMax_left (r g b : ℕ) : nrm r ≤ hslMax r g b := by
  unfold hslMax
  simp only [qmax_eq]
  exact le_trans (le_max_left _ _) (le_max_left _ _)

theorem nrm_le_hslMax_mid (r g b : ℕ) : nrm g ≤ hslMax r g b := by
  unfold hslMax
  simp only [qmax_eq]
  exact le_trans (le_max_right _ _) (le_max_left _ _)

theorem nrm_le_hslMax_right (r g b : ℕ) : nrm b ≤ hslMax r g b := by
  unfold hslMax
  simp only [qmax_eq]
  exact le_max_right _ _

theorem hslMin_le_left (r g b : ℕ) : hslMin r g b ≤ nrm r := by
  unfold hslMin
  simp only [qmin_eq]
  exact le_trans (min_le_left _ _) (min_le_left _ _)

theorem hslMin_le_mid (r g b : ℕ) : hslMin r g b ≤ nrm g := by
  unfold hslMin
  simp only [qmin_eq]
  exact le_trans (min_le_left _ _) (min_le_right _ _)

theorem hslMin_le_right (r g b : ℕ) : hslMin r g b ≤ nrm b := by
  unfold hslMin
  simp only [qmin_eq]
  exact min_le_right _ _

/-- A pixel with two distinct channels has `max - min ≥ 1/255`. -/
theorem chromatic_gap (r g b : ℕ) (hne : ¬(r = g ∧ g = b)) :
    1 / 255 ≤ hslMax r g b - hslMin r g b := by
  by_cases hrg : r = g
  · have hgb : g ≠ b := fun h => hne ⟨hrg, h⟩
    rcases Nat.lt_or_ge g b with h | h
    · have := nrm_gap g b h
      linarith [nrm_le_hslMax_right r g b, hslMin_le_mid r g b]
    · have hlt : b < g := lt_of_le_of_ne h (fun h' => hgb h'.symm)
      have := nrm_gap b g hlt
      linarith [nrm_le_hslMax_mid r g b, hslMin_le_right r g b]
  · rcases Nat.lt_or_ge r g with h | h
    · have := nrm_gap r g h
      linarith [nrm_le_hslMax_mid r g b, hslMin_le_left r g b]
    · have hlt : g < r := lt_of_le_of_ne h (fun h' => hrg h'.symm)
      have := nrm_gap g r hlt
      linarith [nrm_le_hslMax_left r g b, hslMin_le_mid r g b]

/-- The round trip `hsl_to_rgb ∘ rgb_to_hsl` is exactly the identity on
8-bit RGB triples (in the exact-arithmetic model). -/
theorem roundtrip_exact (r g b : ℕ) (hr : r ≤ 255) (hg : g ≤ 255) (hb : b ≤ 255) :
    hsl_to_rgb (rgb_to_hsl r g b).1 (rgb_to_hsl r g b).2.1 (rgb_to_hsl r g b).2.2 =
      (r, g, b) := by
  by_cases hach : r = g ∧ g = b
  · obtain ⟨h1, h2⟩ := hach
    subst h1
    subst h2
    have hM : hslMax r r r = nrm r := by
      unfold hslMax
      simp only [qmax_eq, max_self]
    have hm : hslMin r r r = nrm r := by
      unfold hslMin
      simp only [qmin_eq, min_self]
    have hL : hslL r r r = nrm r := by
      unfold hslL
      rw [hM, hm]
      ring
    have hq0 : qabs 0 < eps := by
      rw [qabs_eq, abs_zero]
      exact eps_pos
    have hc : rgb_to_hsl r r r = (0, 0, nrm r) := by
      unfold rgb_to_hsl
      rw [hM, hm, sub_self, if_pos hq0, hL]
    rw [hc]
    unfold hsl_to_rgb
    rw [if_pos hq0, back_channel r hr]
  · have hgap := chromatic_gap r g b hach
    have hM1 := hslMax_le_one r g b hr hg hb
    have hm0 := hslMin_nonneg r g b
    have hsb := hslS_bounds r g b hM1 hm0 hgap
    have hepslt : eps < 1 / 510 := by norm_num [eps]
    have hsne : ¬ qabs (hslS r g b) < eps := by
      rw [qabs_eq, abs_of_nonneg (by linarith [hsb.1])]
      intro h
      linarith [hsb.1]
    have hMm : ¬ qabs (hslMax r g b - hslMin r g b) < eps := by
      rw [qabs_eq, abs_of_nonneg (by linarith [hslMin_le_hslMax r g b])]
      have := eps_lt_inv255
      intro h
      linarith
    have hc : rgb_to_hsl r g b = (hslH r g b * 60, hslS r g b, hslL r g b) := by
      unfold rgb_to_hsl
      rw [if_neg hMm]
    rw [hc]
    unfold hsl_to_rgb
    rw [if_neg hsne]
    have hQ := hslQ_eval r g b hM1 hm0 hgap
    have hP : 2 * hslL r g b - hslQ (hslS r g b) (hslL r g b) = hslMin r g b := by
      rw [hQ]
      unfold hslL
      ring
    have hdiv1 : hslH r g b * 60 / 360 + 1 / 3 = hslH r g b / 6 + 1 / 3 := by ring
    have hdiv2 : hslH r g b * 60 / 360 = hslH r g b / 6 := by ring
    rw [hP, hQ, hdiv1, hdiv2]
    obtain ⟨hHb, h1, h2, h3⟩ := chromatic_eval r g b hr hg hb hach
    rw [h1, h2, h3, back_channel r hr, back_channel g hg, back_channel b hb]

/-! ## Stage-level invariants -/

theorem sat255_natCast (c : ℕ) (hc : c ≤ 255) : sat255 (c : ℤ) = c := by
  unfold sat255 imin imax
  split_ifs <;> omega

theorem sat255_eq_toNat (z : ℤ) (h0 : 0 ≤ z) (h255 : z ≤ 255) : sat255 z = z.toNat := by
  unfold sat255 imin imax
  split_ifs <;> omega

theorem toneChannel_one (c : ℕ) (hc : c ≤ 255) : toneChannel 1 c = c := by
  unfold toneChannel
  have h1 : nrm c * 1 * 255 = ((c : ℤ) : ℚ) := by
    unfold nrm
    push_cast
    field_simp
  rw [h1, rround_intCast _ (by positivity)]
  exact sat255_natCast c hc

theorem rgb_to_hsl_l (r g b : ℕ) : (rgb_to_hsl r g b).2.2 = hslL r g b := by
  unfold rgb_to_hsl
  split_ifs <;> rfl

theorem hsl_to_rgb_le (h s l : ℚ) :
    (hsl_to_rgb h s l).1 ≤ 255 ∧ (hsl_to_rgb h s l).2.1 ≤ 255 ∧
      (hsl_to_rgb h s l).2.2 ≤ 255 := by
  unfold hsl_to_rgb
  split_ifs <;> exact ⟨sat255_le _, sat255_le _, sat255_le _⟩

theorem exposureChannel_le (m : ℚ) (c : ℕ) : exposureChannel m c ≤ 255 := by
  unfold exposureChannel
  exact Nat.min_le_right _ _

theorem saturationPixel_a (factor : ℚ) (p : Pixel) : (saturationPixel factor p).a = p.a := rfl

theorem vibrancePixel_a (amount : ℚ) (p : Pixel) : (vibrancePixel amount p).a = p.a := rfl

theorem exposurePixel_a (m : ℚ) (p : Pixel) : (exposurePixel m p).a = p.a := rfl

theorem gammaPixel_a (fpow : ℚ → ℚ → ℚ) (ig : ℚ) (p : Pixel) :
    (gammaPixel fpow ig p).a = p.a := rfl

theorem shadowsPixel_a (amount : ℚ) (p : Pixel) : (shadowsPixel amount p).a = p.a := rfl

theorem highlightsPixel_a (amount : ℚ) (p : Pixel) : (highlightsPixel amount p).a = p.a := rfl

theorem alpha_map (f : Pixel → Pixel) (hf : ∀ p, (f p).a = p.a) (img : Buf) :
    (img.map f).map Pixel.a = img.map Pixel.a := by
  induction img with
  | nil => rfl
  | cons p tl ih => simp [hf, ih]

theorem valid_map (f : Pixel → Pixel) (hf : ∀ p, ValidPixel p → ValidPixel (f p))
    (img : Buf) (h : ValidBuf img) : ValidBuf (img.map f) := by
  intro q hq
  rw [List.mem_map] at hq
  obtain ⟨p, hp, rfl⟩ := hq
  exact hf p (h p hp)

theorem saturationPixel_valid (factor : ℚ) (p : Pixel) (hp : ValidPixel p) :
    ValidPixel (saturationPixel factor p) := by
  obtain ⟨h1, h2, h3, h4⟩ := hp
  unfold saturationPixel
  obtain ⟨e1, e2, e3⟩ := hsl_to_rgb_le (rgb_to_hsl p.r p.g p.b).1
    (qclamp ((rgb_to_hsl p.r p.g p.b).2.1 * factor) 0 1) (rgb_to_hsl p.r p.g p.b).2.2
  exact ⟨e1, e2, e3, h4⟩

theorem vibrancePixel_valid (amount : ℚ) (p : Pixel) (hp : ValidPixel p) :
    ValidPixel (vibrancePixel amount p) := by
  obtain ⟨h1, h2, h3, h4⟩ := hp
  unfold vibrancePixel
  obtain ⟨e1, e2, e3⟩ := hsl_to_rgb_le (rgb_to_hsl p.r p.g p.b).1
    (qclamp ((rgb_to_hsl p.r p.g p.b).2.1 + amount * (1 - (rgb_to_hsl p.r p.g p.b).2.1)) 0 1)
    (rgb_to_hsl p.r p.g p.b).2.2
  exact ⟨e1, e2, e3, h4⟩

theorem exposurePixel_valid (m : ℚ) (p : Pixel) (hp : ValidPixel p) :
    ValidPixel (exposurePixel m p) :=
  ⟨exposureChannel_le m p.r, exposureChannel_le m p.g, exposureChannel_le m p.b, hp.2.2.2⟩

theorem gammaPixel_valid (fpow : ℚ → ℚ → ℚ) (ig : ℚ) (p : Pixel) (hp : ValidPixel p) :
    ValidPixel (gammaPixel fpow ig p) :=
  ⟨sat255_le _, sat255_le _, sat255_le _, hp.2.2.2⟩

theorem shadowsPixel_valid (amount : ℚ) (p : Pixel) (hp : ValidPixel p) :
    ValidPixel (shadowsPixel amount p) :=
  ⟨sat255_le _, sat255_le _, sat255_le _, hp.2.2.2⟩

theorem highlightsPixel_valid (amount : ℚ) (p : Pixel) (hp : ValidPixel p) :
    ValidPixel (highlightsPixel amount p) :=
  ⟨sat255_le _, sat255_le _, sat255_le _, hp.2.2.2⟩

theorem alpha_if (c : Prop) [Decidable c] (f : Buf → Buf) (i : Buf)
    (hf : (f i).map Pixel.a = i.map Pixel.a) :
    (if c then f i else i).map Pixel.a = i.map Pixel.a := by
  split_ifs with h
  · exact hf
  · rfl

theorem valid_if (c : Prop) [Decidable c] (f : Buf → Buf) (i : Buf)
    (hf : ValidBuf i → ValidBuf (f i)) (hi : ValidBuf i) :
    ValidBuf (if c then f i else i) := by
  split_ifs with h
  · exact hf hi
  · exact hi

/-- C5: every stage of the pipeline leaves the alpha channel of every
pixel unchanged: each of the six native operators (saturation, vibrance,
exposure, gamma, shadows, highlights) copies the input alpha into the
output pixel, and the whole `adjust_image` preserves the alpha sequence
whenever the three external `image`-crate stages do (their contract). -/
theorem C5_alpha_preservation :
    (∀ (factor : ℚ) (img : Buf),
        (apply_saturation img factor).map Pixel.a = img.map Pixel.a) ∧
    (∀ (amount : ℚ) (img : Buf),
        (apply_vibrance img amount).map Pixel.a = img.map Pixel.a) ∧
    (∀ (fpow : ℚ → ℚ → ℚ) (stops : ℚ) (img : Buf),
        (apply_exposure fpow img stops).map Pixel.a = img.map Pixel.a) ∧
    (∀ (fpow : ℚ → ℚ → ℚ) (gamma : ℚ) (img : Buf),
        (apply_gamma fpow img gamma).map Pixel.a = img.map Pixel.a) ∧
    (∀ (amount : ℚ) (img : Buf),
        (apply_shadows img amount).map Pixel.a = img.map Pixel.a) ∧
    (∀ (amount : ℚ) (img : Buf),
        (apply_highlights img amount).map Pixel.a = img.map Pixel.a) ∧
    (∀ (fpow : ℚ → ℚ → ℚ) (brightenF : ℤ → Buf → Buf) (contrastF : ℚ → Buf → Buf)
        (huerotF : ℤ → Buf → Buf),
      (∀ n i, (brightenF n i).map Pixel.a = i.map Pixel.a) →
      (∀ v i, (contrastF v i).map Pixel.a = i.map Pixel.a) →
      (∀ n i, (huerotF n i).map Pixel.a = i.map Pixel.a) →
      ∀ (img : Buf) (brightness : ℤ) (contrast_val saturation : ℚ) (hue : ℤ)
        (exposure gamma shadows highlights vibrance : ℚ),
        (adjust_image fpow brightenF contrastF huerotF img brightness contrast_val
            saturation hue exposure gamma shadows highlights vibrance).map Pixel.a =
          img.map Pixel.a) := by
  refine ⟨fun factor img => alpha_map _ (saturationPixel_a factor) img,
    fun amount img => alpha_map _ (vibrancePixel_a amount) img,
    fun fpow stops img => alpha_map _ (exposurePixel_a (fpow 2 stops)) img,
    fun fpow gamma img => alpha_map _ (gammaPixel_a fpow (1 / gamma)) img,
    fun amount img => alpha_map _ (shadowsPixel_a amount) img,
    fun amount img => alpha_map _ (highlightsPixel_a amount) img, ?_⟩
  intro fpow brightenF contrastF huerotF hbf hcf hhf img brightness contrast_val
    saturation hue exposure gamma shadows highlights vibrance
  simp only [adjust_image]
  set i1 := if qabs exposure > 1 / 1000 then apply_exposure fpow img exposure else img
    with hi1
  set i2 := if qabs shadows > 1 / 1000 then apply_shadows i1 shadows else i1 with hi2
  set i3 := if qabs highlights > 1 / 1000 then apply_highlights i2 highlights else i2
    with hi3
  set i4 := if qabs (gamma - 1) > 1 / 1000 then apply_gamma fpow i3 gamma else i3 with hi4
  set i5 := if brightness ≠ 0 then
      brightenF (rround ((brightness : ℚ) * (128 / 100))) i4 else i4 with hi5
  set i6 := if qabs contrast_val > 1 / 1000 then contrastF contrast_val i5 else i5 with hi6
  set i7 := if qabs (saturation - 1) > 1 / 1000 then apply_saturation i6 saturation else i6
    with hi7
  set i8 := if qabs vibrance > 1 / 1000 then apply_vibrance i7 (vibrance / 100) else i7
    with hi8
  have e1 : i1.map Pixel.a = img.map Pixel.a := by
    rw [hi1]
    exact alpha_if _ _ img (alpha_map _ (exposurePixel_a (fpow 2 exposure)) img)
  have e2 : i2.map Pixel.a = img.map Pixel.a := by
    rw [hi2]
    exact (alpha_if _ _ i1 (alpha_map _ (shadowsPixel_a shadows) i1)).trans e1
  have e3 : i3.map Pixel.a = img.map Pixel.a := by
    rw [hi3]
    exact (alpha_if _ _ i2 (alpha_map _ (highlightsPixel_a highlights) i2)).trans e2
  have e4 : i4.map Pixel.a = img.map Pixel.a := by
    rw [hi4]
    exact (alpha_if _ _ i3 (alpha_map _ (gammaPixel_a fpow (1 / gamma)) i3)).trans e3
  have e5 : i5.map Pixel.a = img.map Pixel.a := by
    rw [hi5]
    exact (alpha_if _ _ i4 (hbf _ i4)).trans e4
  have e6 : i6.map Pixel.a = img.map Pixel.a := by
    rw [hi6]
    exact (alpha_if _ _ i5 (hcf _ i5)).trans e5
  have e7 : i7.map Pixel.a = img.map Pixel.a := by
    rw [hi7]
    exact (alpha_if _ _ i6 (alpha_map _ (saturationPixel_a saturation) i6)).trans e6
  have e8 : i8.map Pixel.a = img.map Pixel.a := by
    rw [hi8]
    exact (alpha_if _ _ i7 (alpha_map _ (vibrancePixel_a (vibrance / 100)) i7)).trans e7
  exact (alpha_if _ _ i8 (hhf hue i8)).trans e8

theorem C5_alpha_preservation_witness :
    (adjust_image (fun _ _ => 0) (fun _ i => i) (fun _ i => i) (fun _ i => i)
        [⟨1, 2, 3, 77⟩] 5 5 5 5 1 2 5 5 5).map Pixel.a = [⟨1, 2, 3, 77⟩].map Pixel.a :=
  C5_alpha_preservation.2.2.2.2.2.2 (fun _ _ => 0) (fun _ i => i) (fun _ i => i)
    (fun _ i => i) (fun _ _ => rfl) (fun _ _ => rfl) (fun _ _ => rfl)
    [⟨1, 2, 3, 77⟩] 5 5 5 5 1 2 5 5 5

/-- C1: the adjustment pipeline is total and defensively saturated: for
every decoded buffer (channels in `[0,255]`) and all nine parameter
values — in or out of their documented ranges, and for every possible
floating-point behaviour of the `powf` calls — the output of
`adjust_image` has every channel in `[0,255]`; in particular
`apply_gamma`, which rounds without an explicit clamp, produces
in-range channels for all gamma values because the final `as u8` cast
saturates. -/
theorem C1_channel_bounds :
    (∀ (fpow : ℚ → ℚ → ℚ) (gamma : ℚ) (img : Buf), ValidBuf img →
        ValidBuf (apply_gamma fpow img gamma)) ∧
    (∀ (fpow : ℚ → ℚ → ℚ) (brightenF : ℤ → Buf → Buf) (contrastF : ℚ → Buf → Buf)
        (huerotF : ℤ → Buf → Buf),
      (∀ n i, ValidBuf i → ValidBuf (brightenF n i)) →
      (∀ v i, ValidBuf i → ValidBuf (contrastF v i)) →
      (∀ n i, ValidBuf i → ValidBuf (huerotF n i)) →
      ∀ (img : Buf) (brightness : ℤ) (contrast_val saturation : ℚ) (hue : ℤ)
        (exposure gamma shadows highlights vibrance : ℚ), ValidBuf img →
        ValidBuf (adjust_image fpow brightenF contrastF huerotF img brightness
          contrast_val saturation hue exposure gamma shadows highlights vibrance)) := by
  refine ⟨fun fpow gamma img himg =>
    valid_map _ (gammaPixel_valid fpow (1 / gamma)) img himg, ?_⟩
  intro fpow brightenF contrastF huerotF hbf hcf hhf img brightness contrast_val
    saturation hue exposure gamma shadows highlights vibrance himg
  simp only [adjust_image]
  set i1 := if qabs exposure > 1 / 1000 then apply_exposure fpow img exposure else img
    with hi1
  set i2 := if qabs shadows > 1 / 1000 then apply_shadows i1 shadows else i1 with hi2
  set i3 := if qabs highlights > 1 / 1000 then apply_highlights i2 highlights else i2
    with hi3
  set i4 := if qabs (gamma - 1) > 1 / 1000 then apply_gamma fpow i3 gamma else i3 with hi4
  set i5 := if brightness ≠ 0 then
      brightenF (rround ((brightness : ℚ) * (128 / 100))) i4 else i4 with hi5
  set i6 := if qabs contrast_val > 1 / 1000 then contrastF contrast_val i5 else i5 with hi6
  set i7 := if qabs (saturation - 1) > 1 / 1000 then apply_saturation i6 saturation else i6
    with hi7
  set i8 := if qabs vibrance > 1 / 1000 then apply_vibrance i7 (vibrance / 100) else i7
    with hi8
  have v1 : ValidBuf i1 := by
    rw [hi1]
    exact valid_if _ _ img (fun h => valid_map _ (exposurePixel_valid (fpow 2 exposure)) img h)
      himg
  have v2 : ValidBuf i2 := by
    rw [hi2]
    exact valid_if _ _ i1 (fun h => valid_map _ (shadowsPixel_valid shadows) i1 h) v1
  have v3 : ValidBuf i3 := by
    rw [hi3]
    exact valid_if _ _ i2 (fun h => valid_map _ (highlightsPixel_valid highlights) i2 h) v2
  have v4 : ValidBuf i4 := by
    rw [hi4]
    exact valid_if _ _ i3 (fun h => valid_map _ (gammaPixel_valid fpow (1 / gamma)) i3 h) v3
  have v5 : ValidBuf i5 := by
    rw [hi5]
    exact valid_if _ _ i4 (hbf _ i4) v4
  have v6 : ValidBuf i6 := by
    rw [hi6]
    exact valid_if _ _ i5 (hcf _ i5) v5
  have v7 : ValidBuf i7 := by
    rw [hi7]
    exact valid_if _ _ i6 (fun h => valid_map _ (saturationPixel_valid saturation) i6 h) v6
  have v8 : ValidBuf i8 := by
    rw [hi8]
    exact valid_if _ _ i7 (fun h => valid_map _ (vibrancePixel_valid (vibrance / 100)) i7 h) v7
  exact valid_if _ _ i8 (hhf hue i8) v8

theorem C1_channel_bounds_witness :
    ValidBuf (adjust_image (fun _ _ => 1000000) (fun _ i => i) (fun _ i => i)
      (fun _ i => i) [⟨0, 128, 255, 255⟩] 200 (-300) 5 400 2 10 (-500) 500 300) :=
  C1_channel_bounds.2 (fun _ _ => 1000000) (fun _ i => i) (fun _ i => i) (fun _ i => i)
    (fun _ _ h => h) (fun _ _ h => h) (fun _ _ h => h)
    [⟨0, 128, 255, 255⟩] 200 (-300) 5 400 2 10 (-500) 500 300
    (by intro p hp; simp only [List.mem_singleton] at hp; subst hp; exact ⟨by decide, by decide, by decide, by decide⟩)

theorem exposureChannel_spec (m : ℚ) (hm : 0 ≤ m) (c : ℕ) :
    exposureChannel m c = (imin (rround ((c : ℚ) * m)) 255).toNat := by
  unfold exposureChannel sat65535
  have h0 : 0 ≤ rround ((c : ℚ) * m) := rround_nonneg _ (by positivity)
  unfold imin imax
  simp only [Nat.min_def]
  split_ifs <;> omega

/-- C7: the exposure operator multiplies every R, G, B channel by the
`2^stops` multiplier, rounds, and clamps the result to at most 255,
leaving alpha unchanged; with a one-stop exposure (multiplier exactly 2)
the pixel `(100,150,200,255)` becomes `(200,255,255,255)`. -/
theorem C7_exposure :
    (∀ (fpow : ℚ → ℚ → ℚ) (stops : ℚ) (img : Buf), 0 ≤ fpow 2 stops →
      apply_exposure fpow img stops = img.map (fun p =>
        ⟨(imin (rround ((p.r : ℚ) * fpow 2 stops)) 255).toNat,
         (imin (rround ((p.g : ℚ) * fpow 2 stops)) 255).toNat,
         (imin (rround ((p.b : ℚ) * fpow 2 stops)) 255).toNat, p.a⟩)) ∧
    (∀ fpow : ℚ → ℚ → ℚ, fpow 2 1 = 2 →
      apply_exposure fpow [⟨100, 150, 200, 255⟩] 1 = [⟨200, 255, 255, 255⟩]) := by
  constructor
  · intro fpow stops img hm
    unfold apply_exposure
    apply List.map_congr_left
    intro p hp
    unfold exposurePixel
    rw [exposureChannel_spec _ hm, exposureChannel_spec _ hm, exposureChannel_spec _ hm]
  · intro fpow hf
    unfold apply_exposure
    rw [hf]
    norm_num [exposurePixel, exposureChannel, sat65535, rround, imax, imin]
    decide

theorem C7_exposure_witness :
    apply_exposure (fun _ _ => 2) [⟨100, 150, 200, 255⟩] 1 = [⟨200, 255, 255, 255⟩] :=
  C7_exposure.2 (fun _ _ => 2) rfl

/-- C8: a pixel whose luminance is exactly `0.5` has both the shadow
weight `max(0, 1 − 2L)` and the highlight weight `max(0, 2(L − 0.5))`
equal to `0`, so for every amount neither `apply_shadows` nor
`apply_highlights` changes it. -/
theorem C8_midtone_fixed (amount : ℚ) (r g b a : ℕ)
    (hr : r ≤ 255) (hg : g ≤ 255) (hb : b ≤ 255)
    (hlum : luminance (nrm r) (nrm g) (nrm b) = 1 / 2) :
    qmax (1 - luminance (nrm r) (nrm g) (nrm b) * 2) 0 = 0 ∧
    qmax ((luminance (nrm r) (nrm g) (nrm b) - 1 / 2) * 2) 0 = 0 ∧
    shadowsPixel amount ⟨r, g, b, a⟩ = ⟨r, g, b, a⟩ ∧
    highlightsPixel amount ⟨r, g, b, a⟩ = ⟨r, g, b, a⟩ := by
  have hw1 : qmax (1 - luminance (nrm r) (nrm g) (nrm b) * 2) 0 = 0 := by
    rw [hlum]
    norm_num [qmax]
  have hw2 : qmax ((luminance (nrm r) (nrm g) (nrm b) - 1 / 2) * 2) 0 = 0 := by
    rw [hlum]
    norm_num [qmax]
  refine ⟨hw1, hw2, ?_, ?_⟩
  · unfold shadowsPixel
    dsimp only
    rw [hw1, mul_zero, add_zero, toneChannel_one r hr, toneChannel_one g hg,
      toneChannel_one b hb]
  · unfold highlightsPixel
    dsimp only
    rw [hw2, mul_zero, add_zero, toneChannel_one r hr, toneChannel_one g hg,
      toneChannel_one b hb]

theorem C8_midtone_fixed_witness :
    luminance (nrm 90) (nrm 150) (nrm 110) = 1 / 2 ∧
    shadowsPixel 50 ⟨90, 150, 110, 255⟩ = ⟨90, 150, 110, 255⟩ ∧
    highlightsPixel (-80) ⟨90, 150, 110, 255⟩ = ⟨90, 150, 110, 255⟩ := by
  have hlum : luminance (nrm 90) (nrm 150) (nrm 110) = 1 / 2 := by
    norm_num [luminance, nrm]
  exact ⟨hlum,
    (C8_midtone_fixed 50 90 150 110 255 (by norm_num) (by norm_num) (by norm_num)
      hlum).2.2.1,
    (C8_midtone_fixed (-80) 90 150 110 255 (by norm_num) (by norm_num) (by norm_num)
      hlum).2.2.2⟩

/-- C6: the saturation operator with factor 0 collapses every valid pixel
to the achromatic gray whose three channels equal
`round(lightness × 255)`, where lightness is the HSL lightness of the
input pixel; on the example pixel `(100,150,200,255)` the output is
`(150,150,150,255)`. -/
theorem C6_achromatic_saturation :
    (∀ p : Pixel, ValidPixel p →
      saturationPixel 0 p =
        ⟨(rround ((rgb_to_hsl p.r p.g p.b).2.2 * 255)).toNat,
         (rround ((rgb_to_hsl p.r p.g p.b).2.2 * 255)).toNat,
         (rround ((rgb_to_hsl p.r p.g p.b).2.2 * 255)).toNat, p.a⟩) ∧
    apply_saturation [⟨100, 150, 200, 255⟩] 0 = [⟨150, 150, 150, 255⟩] := by
  constructor
  · intro p hv
    obtain ⟨hr, hg, hb, _⟩ := hv
    have hq0 : qabs 0 < eps := by
      rw [qabs_eq, abs_zero]
      exact eps_pos
    have hcl : qclamp ((rgb_to_hsl p.r p.g p.b).2.1 * 0) 0 1 = 0 := by
      rw [mul_zero]
      unfold qclamp qmin qmax
      norm_num
    have hl := hslL_mem p.r p.g p.b hr hg hb
    have hx0 : 0 ≤ rround ((rgb_to_hsl p.r p.g p.b).2.2 * 255) := by
      rw [rgb_to_hsl_l]
      exact rround_nonneg _ (by nlinarith [hl.1])
    have hx255 : rround ((rgb_to_hsl p.r p.g p.b).2.2 * 255) ≤ 255 := by
      rw [rgb_to_hsl_l]
      exact rround_le _ 255 (by push_cast; nlinarith [hl.2]) (by nlinarith [hl.1])
    unfold saturationPixel
    dsimp only
    rw [hcl]
    unfold hsl_to_rgb
    rw [if_pos hq0, sat255_eq_toNat _ hx0 hx255]
  · unfold apply_saturation
    simp only [List.map_cons, List.map_nil]
    norm_num [saturationPixel, rgb_to_hsl, hslMax, hslMin, hslL, hslS, hslH, hsl_to_rgb,
      hslQ, hue_to_rgb, nrm, eps, sat255, rround, qabs, qmax, qmin, qclamp, imax, imin]
    decide

theorem C6_achromatic_saturation_witness :
    saturationPixel 0 ⟨100, 150, 200, 255⟩ =
      ⟨(rround ((rgb_to_hsl 100 150 200).2.2 * 255)).toNat,
       (rround ((rgb_to_hsl 100 150 200).2.2 * 255)).toNat,
       (rround ((rgb_to_hsl 100 150 200).2.2 * 255)).toNat, 255⟩ :=
  C6_achromatic_saturation.1 ⟨100, 150, 200, 255⟩
    ⟨by decide, by decide, by decide, by decide⟩

theorem rgb_to_hsl_achro (r g b : ℕ) (h1 : r = g) (h2 : g = b) :
    rgb_to_hsl r g b = (0, 0, hslL r g b) := by
  subst h1
  subst h2
  have hM : hslMax r r r = hslMin r r r := by
    unfold hslMax hslMin
    simp only [qmax_eq, qmin_eq, max_self, min_self]
  unfold rgb_to_hsl
  rw [hM, sub_self]
  rw [if_pos (by rw [qabs_eq, abs_zero]; exact eps_pos)]

theorem rgb_to_hsl_chrom (r g b : ℕ) (hne : ¬(r = g ∧ g = b)) :
    rgb_to_hsl r g b = (hslH r g b * 60, hslS r g b, hslL r g b) := by
  have hgap := chromatic_gap r g b hne
  have heps := eps_lt_inv255
  have hMm : ¬ qabs (hslMax r g b - hslMin r g b) < eps := by
    rw [qabs_eq, abs_of_nonneg (by linarith [hslMin_le_hslMax r g b])]
    intro h
    linarith
  unfold rgb_to_hsl
  rw [if_neg hMm]

/-- C3: converting any 8-bit RGB triple to HSL and back reproduces each
channel within ±1 (in the exact-rational model the round trip is exact,
so the deviation is 0). -/
theorem C3_roundtrip_within_one (r g b : ℕ) (hr : r ≤ 255) (hg : g ≤ 255)
    (hb : b ≤ 255) :
    (((hsl_to_rgb (rgb_to_hsl r g b).1 (rgb_to_hsl r g b).2.1
        (rgb_to_hsl r g b).2.2).1 : ℤ) - r).natAbs ≤ 1 ∧
    (((hsl_to_rgb (rgb_to_hsl r g b).1 (rgb_to_hsl r g b).2.1
        (rgb_to_hsl r g b).2.2).2.1 : ℤ) - g).natAbs ≤ 1 ∧
    (((hsl_to_rgb (rgb_to_hsl r g b).1 (rgb_to_hsl r g b).2.1
        (rgb_to_hsl r g b).2.2).2.2 : ℤ) - b).natAbs ≤ 1 := by
  rw [roundtrip_exact r g b hr hg hb]
  simp

theorem C3_roundtrip_within_one_witness :
    (((hsl_to_rgb (rgb_to_hsl 13 77 202).1 (rgb_to_hsl 13 77 202).2.1
        (rgb_to_hsl 13 77 202).2.2).1 : ℤ) - 13).natAbs ≤ 1 ∧
    (((hsl_to_rgb (rgb_to_hsl 13 77 202).1 (rgb_to_hsl 13 77 202).2.1
        (rgb_to_hsl 13 77 202).2.2).2.1 : ℤ) - 77).natAbs ≤ 1 ∧
    (((hsl_to_rgb (rgb_to_hsl 13 77 202).1 (rgb_to_hsl 13 77 202).2.1
        (rgb_to_hsl 13 77 202).2.2).2.2 : ℤ) - 202).natAbs ≤ 1 :=
  C3_roundtrip_within_one 13 77 202 (by norm_num) (by norm_num) (by norm_num)

/-- C9: for every 8-bit triple, `rgb_to_hsl` returns `h ∈ [0, 360)`,
`s ∈ [0, 1]` and `l ∈ [0, 1]`, in all branches of the hue and
saturation formulas. -/
theorem C9_rgb_to_hsl_ranges (r g b : ℕ) (hr : r ≤ 255) (hg : g ≤ 255)
    (hb : b ≤ 255) :
    (0 ≤ (rgb_to_hsl r g b).1 ∧ (rgb_to_hsl r g b).1 < 360) ∧
    (0 ≤ (rgb_to_hsl r g b).2.1 ∧ (rgb_to_hsl r g b).2.1 ≤ 1) ∧
    (0 ≤ (rgb_to_hsl r g b).2.2 ∧ (rgb_to_hsl r g b).2.2 ≤ 1) := by
  have hl := hslL_mem r g b hr hg hb
  by_cases hach : r = g ∧ g = b
  · rw [rgb_to_hsl_achro r g b hach.1 hach.2]
    exact ⟨⟨le_refl 0, by norm_num⟩, ⟨le_refl 0, by norm_num⟩, hl.1, hl.2⟩
  · rw [rgb_to_hsl_chrom r g b hach]
    dsimp only
    have hH := (chromatic_eval r g b hr hg hb hach).1
    have hs := hslS_bounds r g b (hslMax_le_one r g b hr hg hb)
      (hslMin_nonneg r g b) (chromatic_gap r g b hach)
    exact ⟨⟨by linarith [hH.1], by linarith [hH.2]⟩,
      ⟨by linarith [hs.1], hs.2⟩, hl.1, hl.2⟩

theorem C9_rgb_to_hsl_ranges_witness :
    (0 ≤ (rgb_to_hsl 250 3 97).1 ∧ (rgb_to_hsl 250 3 97).1 < 360) ∧
    (0 ≤ (rgb_to_hsl 250 3 97).2.1 ∧ (rgb_to_hsl 250 3 97).2.1 ≤ 1) ∧
    (0 ≤ (rgb_to_hsl 250 3 97).2.2 ∧ (rgb_to_hsl 250 3 97).2.2 ≤ 1) :=
  C9_rgb_to_hsl_ranges 250 3 97 (by norm_num) (by norm_num) (by norm_num)

/-- C10: `rgb_to_hsl` takes its achromatic branch — the comparison
`(max - min).abs() < f32::EPSILON` — exactly when `r = g = b`: distinct
8-bit channels differ by at least `1/255` after normalisation, far above
the epsilon cutoff.  On the branch it returns hue 0 and saturation 0,
and off the branch the returned saturation is strictly positive. -/
theorem C10_achromatic_iff (r g b : ℕ) (hr : r ≤ 255) (hg : g ≤ 255) (hb : b ≤ 255) :
    (qabs (hslMax r g b - hslMin r g b) < eps ↔ (r = g ∧ g = b)) ∧
    ((r = g ∧ g = b) → rgb_to_hsl r g b = (0, 0, hslL r g b)) ∧
    (¬(r = g ∧ g = b) → 0 < (rgb_to_hsl r g b).2.1) := by
  refine ⟨⟨?_, ?_⟩, fun h => rgb_to_hsl_achro r g b h.1 h.2, fun h => ?_⟩
  · intro hlt
    by_contra hne
    have hgap := chromatic_gap r g b hne
    have heps := eps_lt_inv255
    rw [qabs_eq, abs_of_nonneg (by linarith [hslMin_le_hslMax r g b])] at hlt
    linarith
  · intro h
    obtain ⟨h1, h2⟩ := h
    subst h1
    subst h2
    have hM : hslMax r r r = hslMin r r r := by
      unfold hslMax hslMin
      simp only [qmax_eq, qmin_eq, max_self, min_self]
    rw [hM, sub_self, qabs_eq, abs_zero]
    exact eps_pos
  · rw [rgb_to_hsl_chrom r g b h]
    have hs := hslS_bounds r g b (hslMax_le_one r g b hr hg hb)
      (hslMin_nonneg r g b) (chromatic_gap r g b h)
    have : (1 : ℚ) / 510 ≤ hslS r g b := hs.1
    show 0 < hslS r g b
    linarith

theorem C10_achromatic_iff_witness :
    (qabs (hslMax 9 9 9 - hslMin 9 9 9) < eps ↔ ((9 : ℕ) = 9 ∧ (9 : ℕ) = 9)) ∧
    (((9 : ℕ) = 9 ∧ (9 : ℕ) = 9) → rgb_to_hsl 9 9 9 = (0, 0, hslL 9 9 9)) ∧
    (¬((9 : ℕ) = 9 ∧ (9 : ℕ) = 9) → 0 < (rgb_to_hsl 9 9 9).2.1) :=
  C10_achromatic_iff 9 9 9 (by norm_num) (by norm_num) (by norm_num)

/-! ## Claims about the pipeline ordering and identity -/

/-- C2: with all nine parameters at their identity values (brightness 0,
contrast 0, saturation 1, hue 0, exposure 0, gamma 1, shadows 0,
highlights 0, vibrance 0) every stage is skipped and `adjust_image`
returns a buffer pixel-identical to the input. -/
theorem C2_identity_at_defaults (fpow : ℚ → ℚ → ℚ) (brightenF : ℤ → Buf → Buf)
    (contrastF : ℚ → Buf → Buf) (huerotF : ℤ → Buf → Buf) (img : Buf) :
    adjust_image fpow brightenF contrastF huerotF img 0 0 1 0 0 1 0 0 0 = img := by
  unfold adjust_image
  norm_num [qabs]

/-- C4: `adjust_image` is exactly the composition of the nine skippable
stages in the fixed order exposure, shadows, highlights, gamma,
brightness, contrast, saturation, vibrance, hue rotation, each stage
guarded by its own skip test (`|exposure| > 0.001`, `|shadows| > 0.001`,
`|highlights| > 0.001`, `|gamma - 1| > 0.001`, `brightness ≠ 0`,
`|contrast| > 0.001`, `|saturation - 1| > 0.001`, `|vibrance| > 0.001`
on the raw scale with the `/100` normalisation applied only inside the
vibrance stage, and `hue ≠ 0`). -/
theorem C4_stage_order (fpow : ℚ → ℚ → ℚ) (brightenF : ℤ → Buf → Buf)
    (contrastF : ℚ → Buf → Buf) (huerotF : ℤ → Buf → Buf) (img : Buf)
    (brightness : ℤ) (contrast_val saturation : ℚ) (hue : ℤ)
    (exposure gamma shadows highlights vibrance : ℚ) :
    adjust_image fpow brightenF contrastF huerotF img brightness contrast_val
        saturation hue exposure gamma shadows highlights vibrance =
      (fun i => if hue ≠ 0 then huerotF hue i else i)
        ((fun i => if qabs vibrance > 1 / 1000 then apply_vibrance i (vibrance / 100) else i)
          ((fun i => if qabs (saturation - 1) > 1 / 1000 then apply_saturation i saturation else i)
            ((fun i => if qabs contrast_val > 1 / 1000 then contrastF contrast_val i else i)
              ((fun i => if brightness ≠ 0 then
                  brightenF (rround ((brightness : ℚ) * (128 / 100))) i else i)
                ((fun i => if qabs (gamma - 1) > 1 / 1000 then apply_gamma fpow i gamma else i)
                  ((fun i => if qabs highlights > 1 / 1000 then apply_highlights i highlights else i)
                    ((fun i => if qabs shadows > 1 / 1000 then apply_shadows i shadows else i)
                      ((fun i => if qabs exposure > 1 / 1000 then apply_exposure fpow i exposure else i)
                        img)))))))) := rfl
